import Mathlib

set_option maxHeartbeats 1000000

/-!
Verification development for the WireGuard QR Code Manager (`src/app/main.py`).

The service is a FastAPI application that manages WireGuard VPN peers: it
allocates client addresses from a configured subnet, generates key material
via the external `wg` tool, renders client configuration text, persists peer
records in a SQL store, and reconciles stored records against the live
daemon state reported by `wg show <iface> dump`.

This file is a shallow embedding of that program.  External subprocess
outcomes (key generation, `wg set`, `wg show ... dump`) are supplied as
explicit oracle values; every external invocation the code performs is
recorded in a `ProcCall` trace (argv plus data written to the child's
stdin), and the SQL store is modelled as a list of `Peer` records threaded
through each operation.  Python `datetime` values are modelled by their
epoch seconds as `Int`.
-/

/-! ### Python string and integer primitives

The source manipulates addresses and dump lines through `str.split`,
`str.strip`, f-string formatting of integers, and `int(...)`.  These are
modelled executably below.  `pyInt?` returns `none` where Python `int()`
raises `ValueError`; it covers the canonical numeric strings (optional `-`
sign followed by decimal digits) that the program ever produces or parses.
-/

/-- Python truthiness of an `Optional[str]`: `None` and `""` are falsy. -/
def pyTruthyStr : Option String → Bool
  | none => false
  | some s => if s = "" then false else true

/-- Split a character list at every occurrence of the separator `c`,
mirroring Python `str.split(sep)` for a one-character separator
(the result always has one more chunk than there are separators). -/
def splitChars (c : Char) : List Char → List (List Char)
  | [] => [[]]
  | x :: xs =>
    match splitChars c xs with
    | [] => [[]]
    | h :: t => if x = c then [] :: h :: t else (x :: h) :: t

/-- Python `s.split(c)` for a one-character separator. -/
def pySplit (c : Char) (s : String) : List String :=
  (splitChars c s.data).map (fun l => String.mk l)

/-- Python `s.strip()`: drop whitespace from both ends. -/
def pyStrip (s : String) : String :=
  String.mk (((s.data.dropWhile Char.isWhitespace).reverse.dropWhile
      Char.isWhitespace).reverse)

/-- Numeric value of a list of decimal digit characters (most significant
first), as accumulated by Python `int()`. -/
def digitsVal (l : List Char) : Nat :=
  l.foldl (fun a c => a * 10 + (c.toNat - 48)) 0

/-- Python `int` over the characters of the argument: an optional `-` sign
followed by at least one decimal digit.  `none` models `ValueError`. -/
def pyIntChars? : List Char → Option Int
  | [] => none
  | c :: cs =>
    if c = '-' then
      if cs ≠ [] ∧ cs.all Char.isDigit then some (-((digitsVal cs : Nat) : Int)) else none
    else
      if (c :: cs).all Char.isDigit then some ((digitsVal (c :: cs) : Nat) : Int) else none

/-- Python `int(s)` on canonical numeric strings. -/
def pyInt? (s : String) : Option Int :=
  pyIntChars? s.data

/-- Little-endian decimal digit characters of `n`, with explicit fuel
(`fuel ≥ n` suffices) so that the definition reduces in the kernel. -/
def natDigitsAux : Nat → Nat → List Char
  | 0, _ => []
  | fuel + 1, n => if n = 0 then [] else Char.ofNat (48 + n % 10) :: natDigitsAux fuel (n / 10)

/-- Python `str(n)` for a natural number. -/
def pyStrNat (n : Nat) : String :=
  if n = 0 then "0" else String.mk (natDigitsAux n n).reverse

/-- Python `str(o)` for an integer (as interpolated by f-strings). -/
def pyStr : Int → String
  | .ofNat n => pyStrNat n
  | .negSucc n => "-" ++ pyStrNat (n + 1)

/-! ### Configuration and data model -/

/-- The environment-derived configuration (`class Config` in the source).
`start_ip` is `WG_START_IP` (parsed with `int`, hence an integer). -/
structure WGConfig where
  wg_interface : String
  server_public_key : String
  server_endpoint : String
  dns : String
  allowed_ips : String
  subnet : String
  start_ip : Int
deriving DecidableEq

/-- A persisted peer record (the `Peer` SQLAlchemy model).  `is_active` is
an `Integer` column (default `1`) tested for Python truthiness, so it is
kept as a `Nat`.  `datetime` columns are epoch seconds. -/
structure Peer where
  id : Nat
  name : String
  public_key : String
  private_key : String
  preshared_key : Option String
  ip_address : String
  created_at : Int
  last_used : Option Int
  usage_count : Nat
  is_active : Nat
  config_text : String
  total_rx : Int
  total_tx : Int
  last_handshake : Option Int
deriving DecidableEq

/-- The error outcomes the route handlers can surface.  Each corresponds to
an `HTTPException` (or, for `valueError`, an unhandled Python exception)
in the source. -/
inductive AppError where
  /-- `HTTPException(status_code=400, detail="Server not configured")` -/
  | configurationError
  /-- `HTTPException(status_code=500, detail="IP address pool exhausted")` -/
  | poolExhausted
  /-- `HTTPException(status_code=500, detail="WireGuard tools not installed")` -/
  | toolUnavailable
  /-- `HTTPException(status_code=500, detail="Key generation failed: ...")` -/
  | keyGenFailed
  /-- `HTTPException(status_code=404, detail="Peer not found")` -/
  | notFound
  /-- an unhandled `ValueError` escaping `int(...)` (surfaced as a 500) -/
  | valueError
deriving DecidableEq

/-- The HTTP status code each error is surfaced with. -/
def http_status : AppError → Nat
  | .configurationError => 400
  | .poolExhausted => 500
  | .toolUnavailable => 500
  | .keyGenFailed => 500
  | .notFound => 404
  | .valueError => 500

/-- One external process invocation: the argv vector and any data written
to the child's stdin (`input=` in `subprocess.run`). -/
structure ProcCall where
  argv : List String
  stdin_data : Option String
deriving DecidableEq

/-! ### Live state reader (`get_wireguard_stats`) -/

/-- One parsed entry of the `wg show <iface> dump` output.
`latest_handshake` is `None` exactly when the daemon reported `0`
("never handshaked"); otherwise it is the epoch of the handshake
(`datetime.fromtimestamp` is modelled by the epoch itself). -/
structure WgStat where
  latest_handshake : Option Int
  rx_bytes : Int
  tx_bytes : Int
  is_connected : Bool
deriving DecidableEq

/-- `int(parts[4]) if parts[4] != '0' else 0` — the handshake field parse. -/
def parse_handshake (s : String) : Option Int :=
  if s = "0" then some 0 else pyInt? s

/-- The stats-dict entry built for one dump line (source lines 116–121):
handshake `0` maps to `None`, and the peer counts as connected iff the
handshake epoch is positive and lies within 130 seconds of `now`. -/
def mk_stat (now latest_handshake rx_bytes tx_bytes : Int) : WgStat :=
  { latest_handshake := if latest_handshake ≠ 0 then some latest_handshake else none
    rx_bytes := rx_bytes
    tx_bytes := tx_bytes
    is_connected := decide (0 < latest_handshake ∧ now - latest_handshake < 130) }

/-- Python dict assignment `stats[k] = v`: overwrite in place if the key
exists, otherwise append. -/
def dictInsert (m : List (String × WgStat)) (k : String) (v : WgStat) :
    List (String × WgStat) :=
  if m.any (fun p => p.1 = k) then m.map (fun p => if p.1 = k then (k, v) else p)
  else m ++ [(k, v)]

/-- Python `dict.get(k)` (keys are unique by construction). -/
def dictGet? (m : List (String × WgStat)) (k : String) : Option WgStat :=
  (m.find? (fun p => p.1 = k)).map (fun p => p.2)

/-- The parse loop over the dump's peer lines.  A line with fewer than 8
tab-separated fields is skipped.  If one of the `int(...)` conversions on a
long-enough line raises (`pyInt? = none`), the exception escapes the loop
into the handler, which returns the entries accumulated so far. -/
def parse_dump_lines (now : Int) : List String → List (String × WgStat) →
    List (String × WgStat)
  | [], stats => stats
  | line :: rest, stats =>
    let parts := pySplit '\t' line
    if 8 ≤ parts.length then
      match parse_handshake (parts.getD 4 ""),
          (if parts.getD 5 "" = "" then some 0 else pyInt? (parts.getD 5 "")),
          (if parts.getD 6 "" = "" then some 0 else pyInt? (parts.getD 6 "")) with
      | some lh, some rx, some tx =>
          parse_dump_lines now rest (dictInsert stats (parts.headD "") (mk_stat now lh rx tx))
      | _, _, _ => stats
    else
      parse_dump_lines now rest stats

/-- Outcome of `subprocess.run(["wg", "show", iface, "dump"], ..., timeout=5)`.
`raised` covers `FileNotFoundError` (tool missing) and
`subprocess.TimeoutExpired` (the bounded 5-second timeout), both caught by
the enclosing `except Exception`. -/
inductive RunOutcome where
  | ok (returncode : Int) (stdout : String)
  | raised
deriving DecidableEq

/-- `get_wireguard_stats`: read and parse the dump.  Nonzero exit returns
the (still empty) stats; the first line (interface info) is skipped. -/
def get_wireguard_stats (now : Int) (r : RunOutcome) : List (String × WgStat) :=
  match r with
  | .raised => []
  | .ok returncode stdout =>
    if returncode ≠ 0 then []
    else
      let lines := pySplit '\n' (pyStrip stdout)
      parse_dump_lines now (lines.drop 1) []

/-! ### Credential generation and live-interface commands -/

/-- Oracle for the two `wg genkey` / `wg pubkey` invocations. -/
inductive KeyGenOutcome where
  | ok (private_key public_key : String)
  /-- `FileNotFoundError`: the `wg` binary is absent. -/
  | toolMissing
  /-- `subprocess.CalledProcessError`: nonzero exit from a key command. -/
  | execFailed
deriving DecidableEq

/-- `generate_wireguard_keys`: run `wg genkey`, then pipe the private key
into `wg pubkey`.  Tool absence and command failure surface as distinct
`HTTPException`s. -/
def generate_wireguard_keys (o : KeyGenOutcome) :
    List ProcCall × Except AppError (String × String) :=
  match o with
  | .ok priv pub =>
      ([⟨["wg", "genkey"], none⟩, ⟨["wg", "pubkey"], some priv⟩], .ok (priv, pub))
  | .toolMissing => ([⟨["wg", "genkey"], none⟩], .error .toolUnavailable)
  | .execFailed => ([⟨["wg", "genkey"], none⟩], .error .keyGenFailed)

/-- Oracle for `wg genpsk`: either its output, or (on any exception) the
locally generated fallback `base64.b64encode(secrets.token_bytes(32))`. -/
inductive PskOutcome where
  | ok (psk : String)
  | fallback (random_b64 : String)
deriving DecidableEq

/-- `generate_preshared_key`: prefer the tool, fall back to a locally
generated secure random value; it never fails. -/
def generate_preshared_key (o : PskOutcome) : List ProcCall × String :=
  match o with
  | .ok psk => ([⟨["wg", "genpsk"], none⟩], psk)
  | .fallback r => ([⟨["wg", "genpsk"], none⟩], r)

/-- `add_peer_to_wireguard`: install a peer on the live interface.  When a
pre-shared key is present (truthy) it is passed via `/dev/stdin` — the key
reaches the child only through its stdin, never through argv.  On success
the running configuration is saved with `wg-quick save`; any exception is
swallowed and reported as `false`. -/
def add_peer_to_wireguard (cfg : WGConfig) (liveOk : Bool)
    (public_key ip_address : String) (preshared_key : Option String) :
    List ProcCall × Bool :=
  let cmd := ["wg", "set", cfg.wg_interface, "peer", public_key, "allowed-ips", ip_address]
  let call : ProcCall :=
    if pyTruthyStr preshared_key then
      ⟨cmd ++ ["preshared-key", "/dev/stdin"], preshared_key⟩
    else ⟨cmd, none⟩
  if liveOk then
    ([call, ⟨["wg-quick", "save", cfg.wg_interface], none⟩], true)
  else
    ([call], false)

/-- `remove_peer_from_wireguard`: best-effort removal from the live
interface; exceptions are swallowed and reported as `false`. -/
def remove_peer_from_wireguard (cfg : WGConfig) (liveOk : Bool) (public_key : String) :
    List ProcCall × Bool :=
  let call : ProcCall := ⟨["wg", "set", cfg.wg_interface, "peer", public_key, "remove"], none⟩
  if liveOk then ([call, ⟨["wg-quick", "save", cfg.wg_interface], none⟩], true)
  else ([call], false)

/-! ### Address allocation (`get_next_ip`) -/

/-- One step of scanning for the record with the greatest id. -/
def max_id_step (acc : Option Peer) (p : Peer) : Option Peer :=
  match acc with
  | none => some p
  | some q => if q.id < p.id then some p else some q

/-- `db.query(Peer).order_by(Peer.id.desc()).first()`: the record with the
greatest primary-key id (ids are unique; ties keep the earlier record). -/
def max_id_peer (db : List Peer) : Option Peer :=
  db.foldl max_id_step none

/-- `int(ip_address.split('.')[-1].split('/')[0])` — the trailing host
octet of a stored address. -/
def last_octet_of (ip_address : String) : Option Int :=
  pyInt? ((pySplit '/' ((pySplit '.' ip_address).getLastD "")).headD "")

/-- `f"{config.WG_SUBNET}.{octet}/32"` — the address string produced for a
host octet. -/
def mk_ip (cfg : WGConfig) (octet : Int) : String :=
  cfg.subnet ++ "." ++ pyStr octet ++ "/32"

/-- `get_next_ip`: take the trailing octet of the most recently inserted
peer's address plus one (or `WG_START_IP` on an empty store); fail with
pool exhaustion past 254.  `valueError` models the `ValueError` that
`int(...)` would raise on a malformed stored address. -/
def get_next_ip (cfg : WGConfig) (db : List Peer) : Except AppError String :=
  let next_octet? : Except AppError Int :=
    match max_id_peer db with
    | some last_peer =>
        match last_octet_of last_peer.ip_address with
        | some last_octet => .ok (last_octet + 1)
        | none => .error .valueError
    | none => .ok cfg.start_ip
  match next_octet? with
  | .error e => .error e
  | .ok next_octet =>
      if 254 < next_octet then .error .poolExhausted
      else .ok (mk_ip cfg next_octet)

/-! ### Config renderer (`create_client_config`) -/

/-- Python `list.insert(-1, x)`: insert immediately before the last
element. -/
def py_insert_before_last (l : List String) (x : String) : List String :=
  l.dropLast ++ x :: l.drop (l.length - 1)

/-- `create_client_config`: the two-section client configuration text; the
`PresharedKey` line is inserted immediately before the keepalive line when
a (truthy) pre-shared key is supplied. -/
def create_client_config (cfg : WGConfig) (private_key ip_address : String)
    (preshared_key : Option String) : String :=
  let config_lines : List String := [
    "[Interface]",
    "PrivateKey = " ++ private_key,
    "Address = " ++ ip_address,
    "DNS = " ++ cfg.dns,
    "",
    "[Peer]",
    "PublicKey = " ++ cfg.server_public_key,
    "AllowedIPs = " ++ cfg.allowed_ips,
    "Endpoint = " ++ cfg.server_endpoint,
    "PersistentKeepalive = 25"]
  let config_lines :=
    if pyTruthyStr preshared_key then
      py_insert_before_last config_lines ("PresharedKey = " ++ preshared_key.getD "")
    else config_lines
  String.intercalate "\n" config_lines

/-! ### Route handlers -/

/-- Python `x or y` for `Optional[str] x`: used for the default peer name. -/
def py_or_str (x : Option String) (y : String) : String :=
  match x with
  | some s => if s = "" then y else s
  | none => y

/-- The non-deterministic inputs of one `POST /api/peers` request: the
subprocess oracles, the submitted form fields, the timestamp-derived
default name, and the request time. -/
structure CreateInput where
  kg : KeyGenOutcome
  pg : PskOutcome
  liveOk : Bool
  form_name : Option String
  use_preshared_key : Bool
  auto_name : String
  now : Int
deriving DecidableEq

/-- Result of one create request: the store after the request, the trace of
external invocations, and the JSON response `(id, name, ip_address)` or the
surfaced error. -/
structure CreateResult where
  db : List Peer
  trace : List ProcCall
  result : Except AppError (Nat × String × String)

/-- SQLite assigns the new row the successor of the greatest existing id. -/
def next_id (db : List Peer) : Nat :=
  (db.map (fun p => p.id)).foldl Nat.max 0 + 1

/-- The record built by the `Peer(...)` constructor call in `create_peer`,
with the column defaults of the model and the id assigned at commit. -/
def new_peer (i : CreateInput) (db : List Peer)
    (private_key public_key ip_address config_text : String)
    (preshared_key : Option String) : Peer :=
  { id := next_id db
    name := py_or_str i.form_name i.auto_name
    public_key := public_key
    private_key := private_key
    preshared_key := preshared_key
    ip_address := ip_address
    created_at := i.now
    last_used := none
    usage_count := 0
    is_active := 1
    config_text := config_text
    total_rx := 0
    total_tx := 0
    last_handshake := none }

/-- `create_peer` (`POST /api/peers`): reject when the server public key is
unset; generate keys; optionally generate a pre-shared key; allocate the
next address; render and persist the record; then best-effort install the
peer on the live interface. -/
def create_peer (cfg : WGConfig) (i : CreateInput) (db : List Peer) : CreateResult :=
  if cfg.server_public_key = "" then
    ⟨db, [], .error .configurationError⟩
  else
    match generate_wireguard_keys i.kg with
    | (t1, .error e) => ⟨db, t1, .error e⟩
    | (t1, .ok (private_key, public_key)) =>
      let pskr : List ProcCall × Option String :=
        if i.use_preshared_key then
          ((generate_preshared_key i.pg).1, some (generate_preshared_key i.pg).2)
        else ([], none)
      match get_next_ip cfg db with
      | .error e => ⟨db, t1 ++ pskr.1, .error e⟩
      | .ok ip_address =>
        let config_text := create_client_config cfg private_key ip_address pskr.2
        let peer : Peer :=
          new_peer i db private_key public_key ip_address config_text pskr.2
        let t3 := (add_peer_to_wireguard cfg i.liveOk public_key ip_address pskr.2).1
        ⟨db ++ [peer], t1 ++ pskr.1 ++ t3, .ok (peer.id, peer.name, ip_address)⟩

/-- A sequence of create requests run against the store in order, returning
the final store and the per-request responses. -/
def run_creates (cfg : WGConfig) : List CreateInput → List Peer →
    List Peer × List (Except AppError (Nat × String × String))
  | [], db => (db, [])
  | i :: more, db =>
    let r := create_peer cfg i db
    let rest := run_creates cfg more r.db
    (rest.1, r.result :: rest.2)

/-- Whether a create response is a success. -/
def except_isOk : Except AppError (Nat × String × String) → Bool
  | .ok _ => true
  | .error _ => false

/-- The allocation invariant after `m` successful creations from an empty
store: the stored addresses are exactly `subnet.(start_ip + k)/32` for
`k < m` in insertion order, ids strictly increase along the store, and
every allocated octet is at most 254. -/
def alloc_inv (cfg : WGConfig) (db : List Peer) (m : Nat) : Prop :=
  db.map (fun p => p.ip_address)
      = (List.range m).map (fun (k : Nat) => mk_ip cfg (cfg.start_ip + (k : Int)))
  ∧ List.Pairwise (fun p q => p.id < q.id) db
  ∧ ∀ k : Nat, k < m → cfg.start_ip + (k : Int) ≤ 254

/-- `delete_peer` (`DELETE /api/peers/{peer_id}`): look up the record,
attempt live removal first (its outcome is ignored), then delete the
persisted record unconditionally. -/
def delete_peer (cfg : WGConfig) (liveOk : Bool) (peer_id : Nat) (db : List Peer) :
    List Peer × List ProcCall × Except AppError Unit :=
  match db.find? (fun p => p.id = peer_id) with
  | none => (db, [], .error .notFound)
  | some peer =>
    let t := (remove_peer_from_wireguard cfg liveOk peer.public_key).1
    (db.filter (fun p => ¬ p.id = peer_id), t, .ok ())

/-- `toggle_peer` (`POST /api/peers/{peer_id}/toggle`): an active peer
(truthy `is_active`) gets a best-effort live removal and `is_active := 0`;
an inactive one gets a best-effort live install with its stored address and
pre-shared key and `is_active := 1`.  The flag is persisted regardless of
the live call's outcome; the response reports the new flag. -/
def toggle_peer (cfg : WGConfig) (liveOk : Bool) (peer_id : Nat) (db : List Peer) :
    List Peer × List ProcCall × Except AppError Bool :=
  match db.find? (fun p => p.id = peer_id) with
  | none => (db, [], .error .notFound)
  | some peer =>
    if peer.is_active ≠ 0 then
      let t := (remove_peer_from_wireguard cfg liveOk peer.public_key).1
      (db.map (fun p => if p.id = peer_id then { p with is_active := 0 } else p), t, .ok false)
    else
      let t := (add_peer_to_wireguard cfg liveOk peer.public_key peer.ip_address
        peer.preshared_key).1
      (db.map (fun p => if p.id = peer_id then { p with is_active := 1 } else p), t, .ok true)

/-! ### Merged views (`index` and `list_peers`) -/

/-- The telemetry-bearing fields of the enriched per-peer dictionary built
by the `index` route (presentation-only formatting helpers omitted). -/
structure PeerView where
  id : Nat
  name : String
  ip_address : String
  is_active : Nat
  public_key : String
  is_connected : Bool
  last_handshake : Option Int
  rx_bytes : Int
  tx_bytes : Int
deriving DecidableEq

/-- One peer's entry in the `index` view: `stats = wg_stats.get(pk, {})`;
`is_connected` and the byte counters default to `False`/`0` when absent,
and `last_handshake` is `stats.get('latest_handshake') or
peer.last_handshake` (Python `or`: the stored value is used when the live
one is `None`). -/
def index_peer_view (stats : Option WgStat) (peer : Peer) : PeerView :=
  { id := peer.id
    name := peer.name
    ip_address := peer.ip_address
    is_active := peer.is_active
    public_key := peer.public_key
    is_connected := (stats.map (fun s => s.is_connected)).getD false
    last_handshake := (stats.bind (fun s => s.latest_handshake)).orElse
      (fun _ => peer.last_handshake)
    rx_bytes := (stats.map (fun s => s.rx_bytes)).getD 0
    tx_bytes := (stats.map (fun s => s.tx_bytes)).getD 0 }

/-- The fields of one peer's entry in the `GET /api/peers` JSON response:
here `last_handshake` has no fallback to the stored value (`None` when no
live entry), and the byte counters default to `0`. -/
structure PeerJsonView where
  id : Nat
  name : String
  ip_address : String
  is_active : Bool
  is_connected : Bool
  last_handshake : Option Int
  rx_bytes : Int
  tx_bytes : Int
deriving DecidableEq

/-- One peer's entry in the `list_peers` JSON response. -/
def list_peer_view (stats : Option WgStat) (p : Peer) : PeerJsonView :=
  { id := p.id
    name := p.name
    ip_address := p.ip_address
    is_active := decide (p.is_active ≠ 0)
    is_connected := (stats.map (fun s => s.is_connected)).getD false
    last_handshake := stats.bind (fun s => s.latest_handshake)
    rx_bytes := (stats.map (fun s => s.rx_bytes)).getD 0
    tx_bytes := (stats.map (fun s => s.tx_bytes)).getD 0 }

/-- The full `index` enrichment: each stored peer joined with its live
entry by public key. -/
def index_view (wg_stats : List (String × WgStat)) (db : List Peer) : List PeerView :=
  db.map (fun p => index_peer_view (dictGet? wg_stats p.public_key) p)

/-- The full `GET /api/peers` response body. -/
def list_peers_view (wg_stats : List (String × WgStat)) (db : List Peer) :
    List PeerJsonView :=
  db.map (fun p => list_peer_view (dictGet? wg_stats p.public_key) p)

/-! ### Concrete instances used by witnesses and counterexamples -/

/-- A fully configured server (defaults of `Config` plus a public key). -/
def cfg_ok : WGConfig :=
  ⟨"wg0", "SPKEY", "vpn.example.com:51820", "1.1.1.1, 1.0.0.1", "0.0.0.0/0, ::/0",
   "10.10.0", 10⟩

/-- The out-of-the-box configuration: `WG_SERVER_PUBLIC_KEY` unset. -/
def cfg_unconfigured : WGConfig :=
  ⟨"wg0", "", "vpn.example.com:51820", "1.1.1.1, 1.0.0.1", "0.0.0.0/0, ::/0",
   "10.10.0", 10⟩

/-- A create request whose subprocess oracles all succeed. -/
def sample_input : CreateInput :=
  ⟨.ok "PRIV1" "PUB1", .ok "PSK1", true, none, true, "Peer-20260101-000000", 0⟩

/-- A second successful create request (tool psk fails over to the local
fallback, live install fails). -/
def sample_input2 : CreateInput :=
  ⟨.ok "PRIV2" "PUB2", .fallback "PSK2", false, some "alice", true, "Peer-20260101-000001", 1⟩

/-- A stored peer holding the last assignable host octet. -/
def peer254 : Peer :=
  { id := 1, name := "n1", public_key := "PK1", private_key := "SK1",
    preshared_key := some "PSK1", ip_address := "10.10.0.254/32", created_at := 0,
    last_used := none, usage_count := 0, is_active := 1, config_text := "",
    total_rx := 0, total_tx := 0, last_handshake := none }

/-- A stored peer with cached telemetry (nonzero stored byte totals and a
persisted handshake time). -/
def peer_cached : Peer :=
  { id := 2, name := "n2", public_key := "PK2", private_key := "SK2",
    preshared_key := none, ip_address := "10.10.0.11/32", created_at := 0,
    last_used := none, usage_count := 0, is_active := 1, config_text := "",
    total_rx := 42, total_tx := 7, last_handshake := some 1000 }

/-- An active stored peer. -/
def peer_active : Peer :=
  { id := 3, name := "n3", public_key := "PK3", private_key := "SK3",
    preshared_key := some "PSK3", ip_address := "10.10.0.12/32", created_at := 0,
    last_used := none, usage_count := 0, is_active := 1, config_text := "",
    total_rx := 0, total_tx := 0, last_handshake := none }

/-- An inactive stored peer with a pre-shared key. -/
def peer_inactive : Peer :=
  { id := 4, name := "n4", public_key := "PK4", private_key := "SK4",
    preshared_key := some "PSK4", ip_address := "10.10.0.13/32", created_at := 0,
    last_used := none, usage_count := 0, is_active := 0, config_text := "",
    total_rx := 0, total_tx := 0, last_handshake := none }

/-- A dump whose first peer line is well-formed and whose second has a
non-numeric `latest-handshake` field (`int` raises mid-loop). -/
def c5_dump : String :=
  "iface\nPK1\tpsk\tep\tips\t100\t5\t6\t25\nPK2\tpsk\tep\tips\tabc\t5\t6\t25"

/-- The entry parsed from the first (well-formed) peer line of `c5_dump`
at read time 150. -/
def c5_entry : WgStat :=
  { latest_handshake := some 100, rx_bytes := 5, tx_bytes := 6, is_connected := true }

/-! ### Small facts about the route handlers -/

theorem mem_filter_ne_id {db : List Peer} {peer_id : Nat} {q : Peer}
    (hq : q ∈ db.filter (fun p => ¬ p.id = peer_id)) : ¬ q.id = peer_id := by
  have := (List.mem_filter.1 hq).2
  simpa using this

theorem mem_map_set_active {db : List Peer} {peer_id v : Nat} {q : Peer}
    (hq : q ∈ db.map (fun p => if p.id = peer_id then { p with is_active := v } else p))
    (hid : q.id = peer_id) : q.is_active = v := by
  rcases List.mem_map.1 hq with ⟨r, _, rfl⟩
  by_cases h : r.id = peer_id
  · simp [h]
  · rw [if_neg h] at hid
    exact absurd hid h

/-- C2: a parsed dump entry is connected iff its handshake epoch is nonzero
and lies strictly within the last 130 seconds of the read time; a literal
`"0"` handshake field parses to epoch `0`, which is reported as a `None`
handshake and is never connected; and in both merged views a stored peer
with no live entry is reported as not connected. -/
theorem c2_connectivity (now h rx tx : Int) (hh : 0 ≤ h) :
    ((mk_stat now h rx tx).is_connected = true ↔ (¬ h = 0 ∧ now - h < 130))
    ∧ (mk_stat now 0 rx tx).latest_handshake = none
    ∧ (mk_stat now 0 rx tx).is_connected = false
    ∧ parse_handshake "0" = some 0
    ∧ (∀ p : Peer, (index_peer_view none p).is_connected = false)
    ∧ (∀ p : Peer, (list_peer_view none p).is_connected = false) := by
  refine ⟨?_, rfl, ?_, rfl, fun p => rfl, fun p => rfl⟩
  · have hc : (mk_stat now h rx tx).is_connected
        = decide (0 < h ∧ now - h < 130) := rfl
    rw [hc, decide_eq_true_eq]
    constructor
    · rintro ⟨h1, h2⟩
      exact ⟨by omega, h2⟩
    · rintro ⟨h1, h2⟩
      exact ⟨by omega, h2⟩
  · have hne : ¬ (0 < (0 : Int) ∧ now - 0 < 130) := fun hx => absurd hx.1 (lt_irrefl 0)
    exact decide_eq_false hne

theorem c2_connectivity_witness :
    (0 ≤ (50 : Int))
    ∧ (((mk_stat 100 50 0 0).is_connected = true ↔ (¬ (50 : Int) = 0 ∧ (100 : Int) - 50 < 130))
      ∧ (mk_stat 100 0 0 0).latest_handshake = none
      ∧ (mk_stat 100 0 0 0).is_connected = false
      ∧ parse_handshake "0" = some 0
      ∧ (∀ p : Peer, (index_peer_view none p).is_connected = false)
      ∧ (∀ p : Peer, (list_peer_view none p).is_connected = false)) :=
  ⟨by decide, c2_connectivity 100 50 0 0 (by decide)⟩

/-- C3: creating a peer while the server public key is unset fails with the
configuration error (HTTP 400, a client error), runs no external command
(hence no key generation), and returns the store unchanged (no allocation
is recorded, nothing is persisted). -/
theorem c3_unconfigured_create (cfg : WGConfig) (i : CreateInput) (db : List Peer)
    (hkey : cfg.server_public_key = "") :
    create_peer cfg i db = ⟨db, [], .error .configurationError⟩
    ∧ http_status .configurationError = 400 := by
  refine ⟨?_, rfl⟩
  simp [create_peer, hkey]

theorem c3_unconfigured_create_witness :
    cfg_unconfigured.server_public_key = ""
    ∧ (create_peer cfg_unconfigured sample_input [peer_cached]
        = ⟨[peer_cached], [], .error .configurationError⟩
      ∧ http_status .configurationError = 400) :=
  ⟨rfl, c3_unconfigured_create cfg_unconfigured sample_input [peer_cached] rfl⟩

/-- C4: when the most recently inserted peer's host octet is already at
least 254 (so the next candidate would exceed 254) and the request reaches
allocation (server configured, key generation succeeded), the create
request fails with pool exhaustion and the store is returned unchanged:
no record is inserted and no existing record is modified. -/
theorem c4_pool_exhausted (cfg : WGConfig) (i : CreateInput) (db : List Peer)
    (lp : Peer) (priv pub : String) (t : Int)
    (hkey : ¬ cfg.server_public_key = "")
    (hkg : i.kg = .ok priv pub)
    (hmax : max_id_peer db = some lp)
    (hoct : last_octet_of lp.ip_address = some t)
    (ht : 254 ≤ t) :
    (create_peer cfg i db).db = db
    ∧ (create_peer cfg i db).result = .error .poolExhausted
    ∧ http_status .poolExhausted = 500 := by
  have hnext : get_next_ip cfg db = .error .poolExhausted := by
    simp [get_next_ip, hmax, hoct, show (254 : Int) < t + 1 by omega]
  refine ⟨?_, ?_, rfl⟩ <;>
    simp [create_peer, hkey, hkg, generate_wireguard_keys, hnext]

theorem c4_pool_exhausted_witness :
    (¬ cfg_ok.server_public_key = "")
    ∧ sample_input.kg = .ok "PRIV1" "PUB1"
    ∧ max_id_peer [peer254] = some peer254
    ∧ last_octet_of peer254.ip_address = some 254
    ∧ (254 : Int) ≤ 254
    ∧ ((create_peer cfg_ok sample_input [peer254]).db = [peer254]
      ∧ (create_peer cfg_ok sample_input [peer254]).result = .error .poolExhausted
      ∧ http_status .poolExhausted = 500) :=
  ⟨by decide, rfl, rfl, rfl, by decide,
    c4_pool_exhausted cfg_ok sample_input [peer254] peer254 "PRIV1" "PUB1" 254
      (by decide) rfl rfl rfl (by decide)⟩

/-- C5 (counterexample): on malformed dump output the reader does not
return an empty mapping — a dump whose second peer line has a non-numeric
handshake field yields the entry parsed before the failure. -/
theorem c5_counterexample :
    get_wireguard_stats 150 (.ok 0 c5_dump) = [("PK1", c5_entry)]
    ∧ get_wireguard_stats 150 (.ok 0 c5_dump) ≠ [] := by
  constructor
  · decide
  · decide

/-- C5 (amended): a missing tool or a timeout (`raised`) and a non-zero
exit status yield an empty mapping without propagating; a line with fewer
than 8 tab-separated fields is skipped (not an error); and a long-enough
line whose handshake field fails `int(...)` stops the loop, returning the
entries accumulated so far (possibly non-empty) instead of propagating. -/
theorem c5_soft_fail (now rc : Int) (out shortLine badLine : String)
    (rest : List String) (stats : List (String × WgStat))
    (hrc : ¬ rc = 0)
    (hshort : (pySplit '\t' shortLine).length < 8)
    (hlong : 8 ≤ (pySplit '\t' badLine).length)
    (hbad : parse_handshake ((pySplit '\t' badLine).getD 4 "") = none) :
    get_wireguard_stats now .raised = []
    ∧ get_wireguard_stats now (.ok rc out) = []
    ∧ parse_dump_lines now (shortLine :: rest) stats = parse_dump_lines now rest stats
    ∧ parse_dump_lines now (badLine :: rest) stats = stats := by
  refine ⟨rfl, ?_, ?_, ?_⟩
  · simp [get_wireguard_stats, hrc]
  · rw [parse_dump_lines]
    simp only [if_neg (by omega : ¬ 8 ≤ (pySplit '\t' shortLine).length)]
  · rw [parse_dump_lines]
    simp only [if_pos hlong, hbad]

theorem c5_soft_fail_witness :
    (¬ (1 : Int) = 0)
    ∧ (pySplit '\t' "a\tb").length < 8
    ∧ 8 ≤ (pySplit '\t' "PK2\tpsk\tep\tips\tabc\t5\t6\t25").length
    ∧ parse_handshake ((pySplit '\t' "PK2\tpsk\tep\tips\tabc\t5\t6\t25").getD 4 "") = none
    ∧ (get_wireguard_stats 0 .raised = []
      ∧ get_wireguard_stats 0 (.ok 1 "whatever") = []
      ∧ parse_dump_lines 0 ["a\tb"] [] = parse_dump_lines 0 [] []
      ∧ parse_dump_lines 0 ["PK2\tpsk\tep\tips\tabc\t5\t6\t25"] [] = []) :=
  ⟨by decide, by decide, by decide, by decide,
    c5_soft_fail 0 1 "whatever" "a\tb" "PK2\tpsk\tep\tips\tabc\t5\t6\t25" [] []
      (by decide) (by decide) (by decide) (by decide)⟩

/-- C6 (counterexample): a stored peer with nonzero cached byte totals and
no live entry is shown with zero RX/TX, not its stored totals — the view
does not fall back to the stored cumulative counters. -/
theorem c6_counterexample :
    peer_cached.total_rx = 42
    ∧ peer_cached.total_tx = 7
    ∧ (index_peer_view none peer_cached).rx_bytes = 0
    ∧ (index_peer_view none peer_cached).tx_bytes = 0
    ∧ ¬ (index_peer_view none peer_cached).rx_bytes = peer_cached.total_rx
    ∧ ¬ (index_peer_view none peer_cached).tx_bytes = peer_cached.total_tx := by
  refine ⟨rfl, rfl, rfl, rfl, by decide, by decide⟩

/-- C6 (amended): with no live entry, the HTML index view falls back to the
peer's stored last-handshake time but reports zero RX/TX (not the stored
totals) and not-connected; the JSON list view reports a null handshake and
zero RX/TX; when a live entry is present its values take precedence, with
the stored handshake used only when the live entry's handshake is null. -/
theorem c6_fallback (p : Peer) (s : WgStat) :
    ((index_peer_view none p).is_connected = false
      ∧ (index_peer_view none p).last_handshake = p.last_handshake
      ∧ (index_peer_view none p).rx_bytes = 0
      ∧ (index_peer_view none p).tx_bytes = 0)
    ∧ ((list_peer_view none p).last_handshake = none
      ∧ (list_peer_view none p).rx_bytes = 0
      ∧ (list_peer_view none p).tx_bytes = 0)
    ∧ ((index_peer_view (some s) p).is_connected = s.is_connected
      ∧ (index_peer_view (some s) p).rx_bytes = s.rx_bytes
      ∧ (index_peer_view (some s) p).tx_bytes = s.tx_bytes
      ∧ (index_peer_view (some s) p).last_handshake
          = s.latest_handshake.orElse (fun _ => p.last_handshake)
      ∧ (list_peer_view (some s) p).last_handshake = s.latest_handshake) :=
  ⟨⟨rfl, rfl, rfl, rfl⟩, ⟨rfl, rfl, rfl⟩, rfl, rfl, rfl, rfl, rfl⟩

/-- C7: deleting an existing peer attempts the live removal (the first
external call of the request is `wg set <iface> peer <pk> remove`) and then
deletes the persisted record unconditionally — for both outcomes of the
live call the request succeeds and the peer is absent from the resulting
store, hence from all subsequent listings. -/
theorem c7_delete (cfg : WGConfig) (liveOk : Bool) (peer_id : Nat) (db : List Peer)
    (peer : Peer) (hfind : db.find? (fun p => p.id = peer_id) = some peer) :
    (delete_peer cfg liveOk peer_id db).1 = db.filter (fun p => ¬ p.id = peer_id)
    ∧ (∀ q ∈ (delete_peer cfg liveOk peer_id db).1, ¬ q.id = peer_id)
    ∧ (delete_peer cfg liveOk peer_id db).2.2 = .ok ()
    ∧ (delete_peer cfg liveOk peer_id db).2.1.headD ⟨[], none⟩
        = ⟨["wg", "set", cfg.wg_interface, "peer", peer.public_key, "remove"], none⟩ := by
  refine ⟨?_, ?_, ?_, ?_⟩
  · simp [delete_peer, hfind]
  · intro q hq
    simp only [delete_peer, hfind] at hq
    exact mem_filter_ne_id hq
  · simp [delete_peer, hfind]
  · cases liveOk <;> simp [delete_peer, hfind, remove_peer_from_wireguard]

theorem c7_delete_witness :
    [peer_active, peer_cached].find? (fun p => p.id = 3) = some peer_active
    ∧ ((delete_peer cfg_ok false 3 [peer_active, peer_cached]).1
        = [peer_active, peer_cached].filter (fun p => ¬ p.id = 3)
      ∧ (∀ q ∈ (delete_peer cfg_ok false 3 [peer_active, peer_cached]).1, ¬ q.id = 3)
      ∧ (delete_peer cfg_ok false 3 [peer_active, peer_cached]).2.2 = .ok ()
      ∧ (delete_peer cfg_ok false 3 [peer_active, peer_cached]).2.1.headD ⟨[], none⟩
          = ⟨["wg", "set", cfg_ok.wg_interface, "peer", peer_active.public_key,
              "remove"], none⟩) :=
  ⟨by decide, c7_delete cfg_ok false 3 [peer_active, peer_cached] peer_active (by decide)⟩

/-- C8: toggling an inactive peer attempts a live install whose argv uses
the peer's exact stored address, with the stored pre-shared key (when
present and truthy) passed only on the child's stdin via `/dev/stdin`;
toggling an active peer attempts a live removal; and in both directions the
persisted `is_active` flag becomes the new intended state for either
outcome of the live call. -/
theorem c8_toggle (cfg : WGConfig) (liveOk : Bool) (peer_id : Nat) (db : List Peer)
    (peer : Peer) (hfind : db.find? (fun p => p.id = peer_id) = some peer) :
    (peer.is_active = 0 → ∀ psk, peer.preshared_key = some psk → ¬ psk = "" →
      (toggle_peer cfg liveOk peer_id db).2.1.headD ⟨[], none⟩
        = ⟨["wg", "set", cfg.wg_interface, "peer", peer.public_key, "allowed-ips",
            peer.ip_address, "preshared-key", "/dev/stdin"], some psk⟩)
    ∧ (peer.is_active = 0 → peer.preshared_key = none →
      (toggle_peer cfg liveOk peer_id db).2.1.headD ⟨[], none⟩
        = ⟨["wg", "set", cfg.wg_interface, "peer", peer.public_key, "allowed-ips",
            peer.ip_address], none⟩)
    ∧ (peer.is_active = 0 →
      (toggle_peer cfg liveOk peer_id db).2.2 = .ok true
      ∧ ∀ q ∈ (toggle_peer cfg liveOk peer_id db).1, q.id = peer_id → q.is_active = 1)
    ∧ (¬ peer.is_active = 0 →
      (toggle_peer cfg liveOk peer_id db).2.1.headD ⟨[], none⟩
        = ⟨["wg", "set", cfg.wg_interface, "peer", peer.public_key, "remove"], none⟩
      ∧ (toggle_peer cfg liveOk peer_id db).2.2 = .ok false
      ∧ ∀ q ∈ (toggle_peer cfg liveOk peer_id db).1, q.id = peer_id → q.is_active = 0) := by
  refine ⟨?_, ?_, ?_, ?_⟩
  · intro h0 psk hpsk hne
    cases liveOk <;>
      simp [toggle_peer, hfind, h0, add_peer_to_wireguard, hpsk, pyTruthyStr, hne]
  · intro h0 hnone
    cases liveOk <;>
      simp [toggle_peer, hfind, h0, add_peer_to_wireguard, hnone, pyTruthyStr]
  · intro h0
    constructor
    · simp [toggle_peer, hfind, h0]
    · intro q hq hqid
      simp only [toggle_peer, hfind, h0, if_neg (by simp : ¬ (0 : Nat) ≠ 0)] at hq
      exact mem_map_set_active hq hqid
  · intro h1
    refine ⟨?_, ?_, ?_⟩
    · cases liveOk <;>
        simp [toggle_peer, hfind, if_pos h1, remove_peer_from_wireguard]
    · simp [toggle_peer, hfind, if_pos h1]
    · intro q hq hqid
      simp only [toggle_peer, hfind, if_pos h1] at hq
      exact mem_map_set_active hq hqid

theorem c8_toggle_witness :
    [peer_inactive].find? (fun p => p.id = 4) = some peer_inactive
    ∧ peer_inactive.is_active = 0
    ∧ peer_inactive.preshared_key = some "PSK4"
    ∧ (¬ "PSK4" = "")
    ∧ (toggle_peer cfg_ok false 4 [peer_inactive]).2.1.headD ⟨[], none⟩
        = ⟨["wg", "set", cfg_ok.wg_interface, "peer", peer_inactive.public_key,
            "allowed-ips", peer_inactive.ip_address, "preshared-key", "/dev/stdin"],
           some "PSK4"⟩
    ∧ (toggle_peer cfg_ok false 4 [peer_inactive]).2.2 = .ok true
    ∧ (∀ q ∈ (toggle_peer cfg_ok false 4 [peer_inactive]).1, q.id = 4 → q.is_active = 1) :=
  ⟨by decide, rfl, rfl, by decide,
    (c8_toggle cfg_ok false 4 [peer_inactive] peer_inactive (by decide)).1
      rfl "PSK4" rfl (by decide),
    ((c8_toggle cfg_ok false 4 [peer_inactive] peer_inactive (by decide)).2.2.1 rfl).1,
    ((c8_toggle cfg_ok false 4 [peer_inactive] peer_inactive (by decide)).2.2.1 rfl).2⟩

/-- C9: the rendered client configuration is the fixed line set in fixed
order — `[Interface]` (private key, address, DNS), a blank line, `[Peer]`
(server public key, allowed IPs, endpoint, `PersistentKeepalive = 25`) —
with the `PresharedKey` line immediately before the keepalive line when a
(nonempty) pre-shared key is supplied, and no such line otherwise. -/
theorem c9_client_config (cfg : WGConfig) (private_key ip_address : String) :
    (∀ psk : String, ¬ psk = "" →
      create_client_config cfg private_key ip_address (some psk)
        = String.intercalate "\n" [
            "[Interface]",
            "PrivateKey = " ++ private_key,
            "Address = " ++ ip_address,
            "DNS = " ++ cfg.dns,
            "",
            "[Peer]",
            "PublicKey = " ++ cfg.server_public_key,
            "AllowedIPs = " ++ cfg.allowed_ips,
            "Endpoint = " ++ cfg.server_endpoint,
            "PresharedKey = " ++ psk,
            "PersistentKeepalive = 25"])
    ∧ create_client_config cfg private_key ip_address none
        = String.intercalate "\n" [
            "[Interface]",
            "PrivateKey = " ++ private_key,
            "Address = " ++ ip_address,
            "DNS = " ++ cfg.dns,
            "",
            "[Peer]",
            "PublicKey = " ++ cfg.server_public_key,
            "AllowedIPs = " ++ cfg.allowed_ips,
            "Endpoint = " ++ cfg.server_endpoint,
            "PersistentKeepalive = 25"] := by
  constructor
  · intro psk hpsk
    simp [create_client_config, pyTruthyStr, hpsk, py_insert_before_last]
  · rfl

theorem c9_client_config_witness :
    (¬ "PSKW" = "")
    ∧ create_client_config cfg_ok "PRIVW" "10.10.0.10/32" (some "PSKW")
        = String.intercalate "\n" [
            "[Interface]",
            "PrivateKey = " ++ "PRIVW",
            "Address = " ++ "10.10.0.10/32",
            "DNS = " ++ cfg_ok.dns,
            "",
            "[Peer]",
            "PublicKey = " ++ cfg_ok.server_public_key,
            "AllowedIPs = " ++ cfg_ok.allowed_ips,
            "Endpoint = " ++ cfg_ok.server_endpoint,
            "PresharedKey = " ++ "PSKW",
            "PersistentKeepalive = 25"] :=
  ⟨by decide, (c9_client_config cfg_ok "PRIVW" "10.10.0.10/32").1 "PSKW" (by decide)⟩

/-! ### Facts about the Python string primitives -/

theorem splitChars_ne_nil (c : Char) (l : List Char) : splitChars c l ≠ [] := by
  induction l with
  | nil => simp [splitChars]
  | cons x xs ih =>
    simp only [splitChars]
    rcases h : splitChars c xs with _ | ⟨h0, t⟩
    · simp
    · dsimp only
      split <;> simp

theorem splitChars_of_not_mem {c : Char} {l : List Char} (h : c ∉ l) :
    splitChars c l = [l] := by
  induction l with
  | nil => rfl
  | cons x xs ih =>
    simp only [List.mem_cons, not_or] at h
    obtain ⟨hxc, hxs⟩ := h
    simp only [splitChars, ih hxs]
    rw [if_neg (fun he => hxc he.symm)]

theorem two_le_splitChars_length (c : Char) (l₁ l₂ : List Char) :
    2 ≤ (splitChars c (l₁ ++ c :: l₂)).length := by
  induction l₁ with
  | nil =>
    simp only [List.nil_append, splitChars]
    rcases h : splitChars c l₂ with _ | ⟨h0, t⟩
    · exact absurd h (splitChars_ne_nil c l₂)
    · dsimp only
      split
      · simp only [List.length_cons]
        omega
      · rename_i hcond
        exact absurd (by trivial) hcond
  | cons x xs ih =>
    simp only [List.cons_append, splitChars]
    rcases h : splitChars c (xs ++ c :: l₂) with _ | ⟨h0, t⟩
    · exact absurd h (splitChars_ne_nil _ _)
    · rw [h] at ih
      dsimp only
      split
      · simp only [List.length_cons]
        omega
      · simp only [List.length_cons] at ih ⊢
        omega

theorem splitChars_getLast?_append {c : Char} (l₁ : List Char) {l₂ : List Char}
    (hc : c ∉ l₂) :
    (splitChars c (l₁ ++ c :: l₂)).getLast? = some l₂ := by
  induction l₁ with
  | nil =>
    simp only [List.nil_append, splitChars, splitChars_of_not_mem hc]
    split
    · simp
    · rename_i hcond
      exact absurd (by trivial) hcond
  | cons x xs ih =>
    simp only [List.cons_append, splitChars]
    rcases h : splitChars c (xs ++ c :: l₂) with _ | ⟨h0, t⟩
    · exact absurd h (splitChars_ne_nil _ _)
    · have h2 := two_le_splitChars_length c xs l₂
      rw [h] at h2 ih
      rcases t with _ | ⟨t0, ts⟩
      · simp at h2
      · dsimp only
        split
        · simpa using ih
        · simpa using ih

theorem splitChars_head?_append {c : Char} (l₁ l₂ : List Char) :
    c ∉ l₁ → (splitChars c (l₁ ++ c :: l₂)).head? = some l₁ := by
  induction l₁ with
  | nil =>
    intro _
    simp only [List.nil_append, splitChars]
    rcases h : splitChars c l₂ with _ | ⟨h0, t⟩
    · exact absurd h (splitChars_ne_nil _ _)
    · dsimp only
      split
      · rfl
      · rename_i hcond
        exact absurd (by trivial) hcond
  | cons x xs ih =>
    intro hc
    simp only [List.mem_cons, not_or] at hc
    obtain ⟨hcx, hcxs⟩ := hc
    simp only [List.cons_append, splitChars]
    rcases h : splitChars c (xs ++ c :: l₂) with _ | ⟨h0, t⟩
    · exact absurd h (splitChars_ne_nil _ _)
    · have hthis := ih hcxs
      rw [h] at hthis
      dsimp only
      rw [if_neg (fun he => hcx he.symm)]
      simp only [List.head?_cons, Option.some.injEq] at hthis ⊢
      rw [hthis]

theorem str_data_append (a b : String) : (a ++ b).data = a.data ++ b.data := rfl

theorem pySplit_getLastD {c : Char} (s : String) (l₁ l₂ : List Char)
    (hs : s.data = l₁ ++ c :: l₂) (hc : c ∉ l₂) :
    (pySplit c s).getLastD "" = String.mk l₂ := by
  unfold pySplit
  rw [hs, List.getLastD_eq_getLast?, List.getLast?_map, splitChars_getLast?_append l₁ hc]
  rfl

theorem pySplit_headD {c : Char} (s : String) (l₁ l₂ : List Char)
    (hs : s.data = l₁ ++ c :: l₂) (hc : c ∉ l₁) :
    (pySplit c s).headD "" = String.mk l₁ := by
  unfold pySplit
  rw [hs, List.headD_eq_head?, List.head?_map, splitChars_head?_append l₁ l₂ hc]
  rfl

theorem digit_char_toNat {m : Nat} (h : m < 10) : (Char.ofNat (48 + m)).toNat = 48 + m := by
  interval_cases m <;> decide

theorem digit_char_isDigit {m : Nat} (h : m < 10) : (Char.ofNat (48 + m)).isDigit = true := by
  interval_cases m <;> decide

theorem natDigitsAux_digits (fuel : Nat) : ∀ (n : Nat), ∀ c ∈ natDigitsAux fuel n,
    c.isDigit = true := by
  induction fuel with
  | zero => intro n c hc; simp [natDigitsAux] at hc
  | succ fuel ih =>
    intro n c hc
    rw [natDigitsAux] at hc
    by_cases h0 : n = 0
    · rw [if_pos h0] at hc
      simp at hc
    · rw [if_neg h0] at hc
      rcases List.mem_cons.1 hc with rfl | hc'
      · exact digit_char_isDigit (Nat.mod_lt n (by omega))
      · exact ih (n / 10) c hc'

theorem natDigitsAux_foldl (fuel : Nat) : ∀ (n a : Nat), n ≤ fuel →
    List.foldl (fun x c => x * 10 + (c.toNat - 48)) a (natDigitsAux fuel n).reverse
      = a * 10 ^ (natDigitsAux fuel n).length + n := by
  induction fuel with
  | zero =>
    intro n a hn
    have hz : n = 0 := by omega
    subst hz
    simp [natDigitsAux]
  | succ fuel ih =>
    intro n a hn
    by_cases h0 : n = 0
    · subst h0
      simp [natDigitsAux]
    · rw [natDigitsAux, if_neg h0, List.reverse_cons, List.foldl_append]
      have hdiv : n / 10 ≤ fuel := by
        have := Nat.div_lt_self (by omega : 0 < n) (by omega : 1 < 10)
        omega
      rw [ih (n / 10) a hdiv]
      simp only [List.foldl_cons, List.foldl_nil, List.length_cons]
      rw [digit_char_toNat (Nat.mod_lt n (by omega))]
      have hmod : 48 + n % 10 - 48 = n % 10 := by omega
      rw [hmod]
      generalize (natDigitsAux fuel (n / 10)).length = L
      rw [pow_succ]
      calc (a * 10 ^ L + n / 10) * 10 + n % 10
          = a * (10 ^ L * 10) + (10 * (n / 10) + n % 10) := by ring
        _ = a * (10 ^ L * 10) + n := by rw [Nat.div_add_mod]

theorem digitsVal_natDigits {n : Nat} : digitsVal (natDigitsAux n n).reverse = n := by
  have := natDigitsAux_foldl n n 0 le_rfl
  simpa [digitsVal] using this

theorem natDigitsAux_ne_nil {n : Nat} (h : ¬ n = 0) : natDigitsAux n n ≠ [] := by
  cases n with
  | zero => exact absurd rfl h
  | succ m =>
    rw [natDigitsAux, if_neg h]
    simp

theorem pyStrNat_data (n : Nat) :
    (pyStrNat n).data = if n = 0 then ['0'] else (natDigitsAux n n).reverse := by
  by_cases h : n = 0
  · subst h
    rfl
  · rw [pyStrNat, if_neg h, if_neg h]

theorem pyStr_mem_digits (o : Int) (c : Char) (hc : c ∈ (pyStr o).data) :
    c.isDigit = true ∨ c = '-' := by
  cases o with
  | ofNat n =>
    left
    simp only [pyStr] at hc
    rw [pyStrNat_data] at hc
    by_cases h : n = 0
    · rw [if_pos h] at hc
      simp at hc
      subst hc
      decide
    · rw [if_neg h] at hc
      exact natDigitsAux_digits n n c (List.mem_reverse.1 hc)
  | negSucc n =>
    simp only [pyStr] at hc
    rw [str_data_append] at hc
    rcases List.mem_append.1 hc with h1 | h2
    · right
      have hm : ("-" : String).data = ['-'] := rfl
      rw [hm] at h1
      simpa using h1
    · left
      rw [pyStrNat_data, if_neg (Nat.succ_ne_zero n)] at h2
      exact natDigitsAux_digits _ _ c (List.mem_reverse.1 h2)

theorem not_mem_pyStr {o : Int} {c : Char} (h1 : c.isDigit = false) (h2 : ¬ c = '-') :
    c ∉ (pyStr o).data := by
  intro hc
  rcases pyStr_mem_digits o c hc with hd | hd
  · rw [hd] at h1
    simp at h1
  · exact h2 hd

theorem pyIntChars?_digits (l : List Char) (h1 : l ≠ [])
    (h2 : ∀ c ∈ l, c.isDigit = true) :
    pyIntChars? l = some ((digitsVal l : Nat) : Int) := by
  rcases l with _ | ⟨c, cs⟩
  · exact absurd rfl h1
  · rw [pyIntChars?]
    have hcd := h2 c (List.mem_cons_self c cs)
    have hcne : ¬ c = '-' := by
      intro he
      rw [he] at hcd
      simp at hcd
    rw [if_neg hcne, if_pos (List.all_eq_true.2 h2)]

theorem pyInt?_pyStr (o : Int) : pyInt? (pyStr o) = some o := by
  cases o with
  | ofNat n =>
    by_cases h : n = 0
    · subst h
      decide
    · have hd : (pyStr (Int.ofNat n)).data = (natDigitsAux n n).reverse := by
        simp only [pyStr]
        rw [pyStrNat_data, if_neg h]
      rw [pyInt?, hd,
        pyIntChars?_digits _ (by simpa using natDigitsAux_ne_nil h)
          (fun c hc => natDigitsAux_digits n n c (List.mem_reverse.1 hc)),
        digitsVal_natDigits]
      rfl
  | negSucc n =>
    have hd : (pyStr (Int.negSucc n)).data
        = '-' :: (natDigitsAux (n + 1) (n + 1)).reverse := by
      simp only [pyStr]
      rw [str_data_append]
      have hm : ("-" : String).data = ['-'] := rfl
      rw [hm, pyStrNat_data, if_neg (Nat.succ_ne_zero n)]
      rfl
    rw [pyInt?, hd, pyIntChars?, if_pos rfl,
      if_pos ⟨by simpa using natDigitsAux_ne_nil (Nat.succ_ne_zero n),
        List.all_eq_true.2
          (fun c hc => natDigitsAux_digits _ _ c (List.mem_reverse.1 hc))⟩,
      digitsVal_natDigits]
    simp [Int.negSucc_eq]

theorem last_octet_of_mk_ip (cfg : WGConfig) (o : Int) :
    last_octet_of (mk_ip cfg o) = some o := by
  have hdot : ('.' : Char) ∉ (pyStr o).data ++ '/' :: ['3', '2'] := by
    intro h
    rcases List.mem_append.1 h with h1 | h2
    · exact not_mem_pyStr (by decide) (by decide) h1
    · exact absurd h2 (by decide)
  have hslash : ('/' : Char) ∉ (pyStr o).data :=
    not_mem_pyStr (by decide) (by decide)
  have hdata : (mk_ip cfg o).data
      = cfg.subnet.data ++ '.' :: ((pyStr o).data ++ '/' :: ['3', '2']) := by
    rw [mk_ip, str_data_append, str_data_append, str_data_append]
    have h1 : ("." : String).data = ['.'] := rfl
    have h2 : ("/32" : String).data = ['/', '3', '2'] := rfl
    rw [h1, h2]
    simp
  rw [last_octet_of,
    pySplit_getLastD (mk_ip cfg o) cfg.subnet.data ((pyStr o).data ++ '/' :: ['3', '2'])
      hdata hdot,
    pySplit_headD (String.mk ((pyStr o).data ++ '/' :: ['3', '2'])) (pyStr o).data
      ['3', '2'] rfl hslash]
  exact pyInt?_pyStr o

/-! ### Facts about the allocator -/

theorem foldl_max_id_some (p : Peer) (db : List Peer)
    (hall : ∀ q ∈ db, q = p ∨ q.id < p.id) :
    db.foldl max_id_step (some p) = some p := by
  induction db with
  | nil => rfl
  | cons x xs ih =>
    have hstep : max_id_step (some p) x = some p := by
      rcases hall x (List.mem_cons_self x xs) with rfl | hlt
      · simp [max_id_step]
      · simp [max_id_step, Nat.not_lt.2 (Nat.le_of_lt hlt)]
    rw [List.foldl_cons, hstep]
    exact ih (fun q hq => hall q (List.mem_cons_of_mem x hq))

theorem foldl_max_id_reaches (p : Peer) (db : List Peer) :
    p ∈ db → (∀ q ∈ db, q = p ∨ q.id < p.id) →
    ∀ acc : Option Peer, (acc = none ∨ ∃ r, acc = some r ∧ r.id < p.id) →
    db.foldl max_id_step acc = some p := by
  induction db with
  | nil =>
    intro hp
    exact absurd hp (List.not_mem_nil p)
  | cons x xs ih =>
    intro hp hall acc hacc
    rcases List.mem_cons.1 hp with rfl | hp'
    · have hstep : max_id_step acc p = some p := by
        rcases hacc with rfl | ⟨r, rfl, hr⟩
        · rfl
        · simp [max_id_step, hr]
      rw [List.foldl_cons, hstep]
      exact foldl_max_id_some p xs (fun q hq => hall q (List.mem_cons_of_mem p hq))
    · rcases hall x (List.mem_cons_self x xs) with rfl | hx
      · have hstep : max_id_step acc x = some x := by
          rcases hacc with rfl | ⟨r, rfl, hr⟩
          · rfl
          · simp [max_id_step, hr]
        rw [List.foldl_cons, hstep]
        exact foldl_max_id_some x xs (fun q hq => hall q (List.mem_cons_of_mem x hq))
      · rw [List.foldl_cons]
        apply ih hp' (fun q hq => hall q (List.mem_cons_of_mem x hq))
        right
        rcases hacc with rfl | ⟨r, rfl, hr⟩
        · exact ⟨x, rfl, hx⟩
        · by_cases hrx : r.id < x.id
          · exact ⟨x, by simp [max_id_step, hrx], hx⟩
          · exact ⟨r, by simp [max_id_step, hrx], hr⟩

theorem max_id_peer_eq_of (db : List Peer) (p : Peer) (hp : p ∈ db)
    (hall : ∀ q ∈ db, q = p ∨ q.id < p.id) :
    max_id_peer db = some p :=
  foldl_max_id_reaches p db hp hall none (Or.inl rfl)

theorem max_id_peer_last (db : List Peer) (hne : db ≠ [])
    (hpw : List.Pairwise (fun p q => p.id < q.id) db) :
    max_id_peer db = some (db.getLast hne) := by
  apply max_id_peer_eq_of db _ (List.getLast_mem hne)
  intro q hq
  have h2 : List.Pairwise (fun p q => p.id < q.id)
      (db.dropLast ++ [db.getLast hne]) := by
    rw [List.dropLast_append_getLast hne]
    exact hpw
  have hq2 : q ∈ db.dropLast ++ [db.getLast hne] := by
    rw [List.dropLast_append_getLast hne]
    exact hq
  rcases List.mem_append.1 hq2 with hq1 | hq1
  · right
    exact (List.pairwise_append.1 h2).2.2 q hq1 _ (by simp)
  · left
    simpa using hq1

theorem le_foldl_max (l : List Nat) : ∀ b : Nat, b ≤ l.foldl Nat.max b := by
  induction l with
  | nil =>
    intro b
    exact le_rfl
  | cons x xs ih =>
    intro b
    rw [List.foldl_cons]
    calc b ≤ Nat.max b x := Nat.le_max_left b x
      _ ≤ xs.foldl Nat.max (Nat.max b x) := ih _

theorem mem_le_foldl_max (l : List Nat) : ∀ (b a : Nat), a ∈ l → a ≤ l.foldl Nat.max b := by
  induction l with
  | nil =>
    intro b a ha
    exact absurd ha (List.not_mem_nil a)
  | cons x xs ih =>
    intro b a ha
    rw [List.foldl_cons]
    rcases List.mem_cons.1 ha with rfl | ha'
    · calc a ≤ Nat.max b a := Nat.le_max_right b a
        _ ≤ xs.foldl Nat.max (Nat.max b a) := le_foldl_max xs _
    · exact ih _ a ha'

theorem id_lt_next_id {db : List Peer} {q : Peer} (hq : q ∈ db) : q.id < next_id db := by
  have h1 : q.id ≤ (db.map (fun p => p.id)).foldl Nat.max 0 :=
    mem_le_foldl_max _ 0 q.id (List.mem_map_of_mem _ hq)
  have h2 : next_id db = (db.map (fun p => p.id)).foldl Nat.max 0 + 1 := rfl
  omega

theorem get_next_ip_inv (cfg : WGConfig) (db : List Peer) (m : Nat)
    (hinv : alloc_inv cfg db m) :
    get_next_ip cfg db
      = if 254 < cfg.start_ip + (m : Int) then .error .poolExhausted
        else .ok (mk_ip cfg (cfg.start_ip + (m : Int))) := by
  obtain ⟨hips, hpw, _⟩ := hinv
  cases m with
  | zero =>
    have hdb : db = [] := by
      simp only [List.range_zero, List.map_nil] at hips
      exact List.map_eq_nil_iff.1 hips
    subst hdb
    simp [get_next_ip, max_id_peer, Nat.cast_zero, add_zero]
  | succ m' =>
    have hne : db ≠ [] := by
      intro h
      subst h
      have := congrArg List.length hips
      simp at this
    have hmax := max_id_peer_last db hne hpw
    have hlast : (db.getLast hne).ip_address = mk_ip cfg (cfg.start_ip + (m' : Int)) := by
      have h1 : (db.map (fun p => p.ip_address)).getLast?
          = some ((db.getLast hne).ip_address) := by
        rw [List.getLast?_map, List.getLast?_eq_getLast_of_ne_nil hne]
        rfl
      rw [hips, List.range_succ, List.map_append] at h1
      simp only [List.map_cons, List.map_nil] at h1
      rw [List.getLast?_concat] at h1
      injection h1 with h1
      exact h1.symm
    simp only [get_next_ip, hmax, hlast, last_octet_of_mk_ip]
    have harith : cfg.start_ip + (m' : Int) + 1 = cfg.start_ip + ((m' + 1 : Nat) : Int) := by
      push_cast
      ring
    rw [harith]

/-- C10: on a non-empty store, `get_next_ip` is determined solely by the
peer with the greatest primary-key id: it equals the allocation computed
from that single peer, and (when the successor octet is in range) returns
`subnet.(t+1)/32` where `t` is that peer's trailing host octet, whatever
addresses the other peers hold; past 254 it fails with pool exhaustion. -/
theorem c10_allocator (cfg : WGConfig) (db : List Peer) (p : Peer) (t : Int)
    (hp : p ∈ db)
    (hmax : ∀ q ∈ db, q = p ∨ q.id < p.id)
    (hoct : last_octet_of p.ip_address = some t) :
    get_next_ip cfg db = get_next_ip cfg [p]
    ∧ (t + 1 ≤ 254 →
        get_next_ip cfg db = .ok (cfg.subnet ++ "." ++ pyStr (t + 1) ++ "/32"))
    ∧ (254 < t + 1 → get_next_ip cfg db = .error .poolExhausted) := by
  have h1 : max_id_peer db = some p := max_id_peer_eq_of db p hp hmax
  have h2 : max_id_peer [p] = some p := rfl
  refine ⟨?_, ?_, ?_⟩
  · simp only [get_next_ip, h1, h2]
  · intro ht
    simp only [get_next_ip, h1, hoct]
    rw [if_neg (by omega : ¬ 254 < t + 1)]
    rfl
  · intro ht
    simp only [get_next_ip, h1, hoct]
    rw [if_pos ht]

theorem c10_allocator_witness :
    peer_active ∈ [peer_cached, peer_active]
    ∧ (∀ q ∈ [peer_cached, peer_active], q = peer_active ∨ q.id < peer_active.id)
    ∧ last_octet_of peer_active.ip_address = some 12
    ∧ (get_next_ip cfg_ok [peer_cached, peer_active] = get_next_ip cfg_ok [peer_active]
      ∧ ((12 : Int) + 1 ≤ 254 →
          get_next_ip cfg_ok [peer_cached, peer_active]
            = .ok (cfg_ok.subnet ++ "." ++ pyStr (12 + 1) ++ "/32"))
      ∧ ((254 : Int) < 12 + 1 →
          get_next_ip cfg_ok [peer_cached, peer_active] = .error .poolExhausted)) :=
  ⟨by decide, by decide, by decide,
    c10_allocator cfg_ok [peer_cached, peer_active] peer_active 12
      (by decide) (by decide) (by decide)⟩

theorem create_peer_success_db (cfg : WGConfig) (i : CreateInput) (db : List Peer)
    (priv pub ip : String)
    (hkey : ¬ cfg.server_public_key = "") (hkg : i.kg = .ok priv pub)
    (hip : get_next_ip cfg db = .ok ip) :
    (create_peer cfg i db).db
      = db ++ [new_peer i db priv pub ip
          (create_client_config cfg priv ip
            (if i.use_preshared_key then some (generate_preshared_key i.pg).2 else none))
          (if i.use_preshared_key then some (generate_preshared_key i.pg).2 else none)]
    ∧ (create_peer cfg i db).result
        = .ok (next_id db, py_or_str i.form_name i.auto_name, ip) := by
  by_cases hpg : i.use_preshared_key <;>
    exact ⟨by simp [create_peer, hkey, hkg, generate_wireguard_keys, hip, hpg],
      by simp [create_peer, hkey, hkg, generate_wireguard_keys, hip, hpg, new_peer]⟩

theorem create_step (cfg : WGConfig) (i : CreateInput) (db : List Peer) (m : Nat)
    (hinv : alloc_inv cfg db m)
    (hok : except_isOk (create_peer cfg i db).result = true) :
    alloc_inv cfg (create_peer cfg i db).db (m + 1) := by
  by_cases hkey : cfg.server_public_key = ""
  · exfalso
    simp [create_peer, hkey, except_isOk] at hok
  rcases hkgc : i.kg with ⟨priv, pub⟩ | _ | _
  rotate_left
  · exfalso
    simp [create_peer, hkey, hkgc, generate_wireguard_keys, except_isOk] at hok
  · exfalso
    simp [create_peer, hkey, hkgc, generate_wireguard_keys, except_isOk] at hok
  · have hnext := get_next_ip_inv cfg db m hinv
    by_cases hbound : 254 < cfg.start_ip + (m : Int)
    · exfalso
      rw [if_pos hbound] at hnext
      simp [create_peer, hkey, hkgc, generate_wireguard_keys, hnext, except_isOk] at hok
    · rw [if_neg hbound] at hnext
      obtain ⟨hdb, _⟩ := create_peer_success_db cfg i db priv pub _ hkey hkgc hnext
      rw [hdb]
      obtain ⟨hips, hpw, hbnd⟩ := hinv
      refine ⟨?_, ?_, ?_⟩
      · rw [List.map_append, hips, List.range_succ, List.map_append]
        simp [new_peer]
      · rw [List.pairwise_append]
        refine ⟨hpw, List.pairwise_singleton _ _, ?_⟩
        intro a ha b hb
        simp only [List.mem_singleton] at hb
        subst hb
        show a.id < next_id db
        exact id_lt_next_id ha
      · intro k hk
        by_cases hkm : k < m
        · exact hbnd k hkm
        · have hkem : k = m := by omega
          subst hkem
          omega

theorem run_creates_inv (cfg : WGConfig) (inputs : List CreateInput) :
    ∀ (db : List Peer) (m : Nat), alloc_inv cfg db m →
    (run_creates cfg inputs db).2.all except_isOk = true →
    alloc_inv cfg (run_creates cfg inputs db).1 (m + inputs.length) := by
  induction inputs with
  | nil =>
    intro db m h _
    simpa using h
  | cons i more ih =>
    intro db m hinv hall
    simp only [run_creates, List.all_cons, Bool.and_eq_true] at hall
    obtain ⟨hok, hrest⟩ := hall
    have hstep := create_step cfg i db m hinv hok
    have hmain := ih (create_peer cfg i db).db (m + 1) hstep hrest
    simp only [run_creates]
    have harith : m + 1 + more.length = m + (i :: more).length := by
      simp only [List.length_cons]
      omega
    rw [← harith]
    exact hmain

/-- C1: for every sequence of create requests that all succeed, starting
from the empty store, the allocated addresses are exactly
`subnet.(start_ip + k)/32` in creation order; their host octets are
strictly increasing (hence pairwise distinct) and begin at the configured
start offset; and every allocated address is the configured subnet prefix
followed by a host octet between the start offset and 254 with a `/32`
mask. -/
theorem c1_allocation (cfg : WGConfig) (inputs : List CreateInput)
    (hok : (run_creates cfg inputs []).2.all except_isOk = true) :
    (run_creates cfg inputs []).1.map (fun p => p.ip_address)
        = (List.range inputs.length).map
            (fun (k : Nat) => mk_ip cfg (cfg.start_ip + (k : Int)))
    ∧ (run_creates cfg inputs []).1.map (fun p => (last_octet_of p.ip_address).getD 0)
        = (List.range inputs.length).map (fun (k : Nat) => cfg.start_ip + (k : Int))
    ∧ List.Pairwise (fun s t => s < t)
        ((run_creates cfg inputs []).1.map (fun p => (last_octet_of p.ip_address).getD 0))
    ∧ ∀ p ∈ (run_creates cfg inputs []).1, ∃ t : Int,
        last_octet_of p.ip_address = some t
        ∧ cfg.start_ip ≤ t ∧ t ≤ 254
        ∧ p.ip_address = cfg.subnet ++ "." ++ pyStr t ++ "/32" := by
  have hinv0 : alloc_inv cfg [] 0 :=
    ⟨rfl, List.Pairwise.nil, fun k hk => absurd hk (Nat.not_lt_zero k)⟩
  have hfin := run_creates_inv cfg inputs [] 0 hinv0 hok
  rw [Nat.zero_add] at hfin
  obtain ⟨hips, hpw, hbnd⟩ := hfin
  have hoct : (run_creates cfg inputs []).1.map
        (fun p => (last_octet_of p.ip_address).getD 0)
      = (List.range inputs.length).map (fun (k : Nat) => cfg.start_ip + (k : Int)) := by
    have h1 : (run_creates cfg inputs []).1.map
          (fun p => (last_octet_of p.ip_address).getD 0)
        = ((run_creates cfg inputs []).1.map (fun p => p.ip_address)).map
            (fun s => (last_octet_of s).getD 0) := by
      rw [List.map_map]
      rfl
    rw [h1, hips, List.map_map]
    apply List.map_congr_left
    intro k _
    simp only [Function.comp_apply]
    rw [last_octet_of_mk_ip]
    rfl
  refine ⟨hips, hoct, ?_, ?_⟩
  · rw [hoct, List.pairwise_map]
    exact (List.pairwise_lt_range inputs.length).imp (fun h => by omega)
  · intro p hp
    have hip : p.ip_address ∈ (run_creates cfg inputs []).1.map (fun p => p.ip_address) :=
      List.mem_map_of_mem _ hp
    rw [hips] at hip
    rcases List.mem_map.1 hip with ⟨k, hk, hmk⟩
    have hkn : k < inputs.length := List.mem_range.1 hk
    refine ⟨cfg.start_ip + (k : Int), ?_, ?_, ?_, ?_⟩
    · rw [← hmk, last_octet_of_mk_ip]
    · omega
    · exact hbnd k hkn
    · rw [← hmk]
      rfl

theorem c1_allocation_witness :
    ((run_creates cfg_ok [sample_input, sample_input2] []).2.all except_isOk = true)
    ∧ ((run_creates cfg_ok [sample_input, sample_input2] []).1.map (fun p => p.ip_address)
        = (List.range 2).map (fun (k : Nat) => mk_ip cfg_ok (cfg_ok.start_ip + (k : Int)))
      ∧ (run_creates cfg_ok [sample_input, sample_input2] []).1.map
            (fun p => (last_octet_of p.ip_address).getD 0)
          = (List.range 2).map (fun (k : Nat) => cfg_ok.start_ip + (k : Int))
      ∧ List.Pairwise (fun s t => s < t)
          ((run_creates cfg_ok [sample_input, sample_input2] []).1.map
            (fun p => (last_octet_of p.ip_address).getD 0))
      ∧ ∀ p ∈ (run_creates cfg_ok [sample_input, sample_input2] []).1, ∃ t : Int,
          last_octet_of p.ip_address = some t
          ∧ cfg_ok.start_ip ≤ t ∧ t ≤ 254
          ∧ p.ip_address = cfg_ok.subnet ++ "." ++ pyStr t ++ "/32") :=
  ⟨by decide, c1_allocation cfg_ok [sample_input, sample_input2] (by decide)⟩
